import Mathlib

/-!
Verification of the image-editor pipeline (`src/main.rs`) against its
specification.

The program is a thin validation layer over RGBA8 raster images: crop,
rotate, brightness, contrast, grayscale, invert and alpha-composited
overlay.  We embed the pixel buffer as a width/height pair with a pixel
function, u32 arithmetic as natural numbers with explicit wraparound
(`% 2^32`, the release-build semantics of an overflowing `+`), and
`f32` arithmetic exactly: every finite binary32 value is a dyadic
rational `m * 2^e`, and every operation rounds its exact rational
result back to 24 significant bits (round-to-nearest, ties-to-even),
which is the IEEE-754 binary32 behaviour of Rust's `f32` operators.
All values reached by the embedded computations lie well inside the
normal range of binary32 (magnitudes between `2^-60` and `2^60`, far
from overflow and subnormals), so exponent clamping never fires and is
not modelled.
-/

set_option maxRecDepth 100000

namespace ImageEditor

/-! ### Exact binary32 model on dyadic rationals -/

/-- A finite binary32 value, represented exactly as the dyadic rational
`m * 2^e`.  The representation is not required to be normalised; all
definitions below depend only on the denoted value. -/
structure Dy where
  m : Int
  e : Int
deriving DecidableEq

/-- The rational value denoted by a dyadic. -/
def Dy.toRat (x : Dy) : ℚ := (x.m : ℚ) * (2 : ℚ) ^ x.e

/-- Round `num / den` (with `den > 0`) to the nearest integer,
ties going to the even integer. -/
def rneNat (num den : Nat) : Nat :=
  let q := num / den
  let r := num % den
  if 2 * r < den then q
  else if den < 2 * r then q + 1
  else if q % 2 = 0 then q else q + 1

/-- Fuelled binary logarithm: `log2F fuel n = floor (log2 n)` for
`1 ≤ n < 2 ^ (fuel + 1)` (and `0` for `n = 0`).  Structural recursion
on the fuel keeps it kernel-reducible. -/
def log2F : Nat → Nat → Nat
  | 0, _ => 0
  | fuel + 1, n => if n < 2 then 0 else log2F fuel (n / 2) + 1

/-- `floor (log2 n)`, valid for every `n < 2 ^ 513` (all numbers the
embedded pipeline can produce are far smaller). -/
def nlog2 (n : Nat) : Nat := log2F 512 n

/-- `floor (log2 (a / d))` for `a, d ≥ 1`: the difference of the two
floor-logarithms, corrected by one when `a / d` falls below `2 ^ l`. -/
def qlog2 (a d : Nat) : Int :=
  let l : Int := (nlog2 a : Int) - (nlog2 d : Int)
  if d * 2 ^ l.toNat ≤ a * 2 ^ (-l).toNat then l else l - 1

/-- Round the positive rational `(a / d) * 2 ^ e` (`a, d ≥ 1`) to 24
significant bits: scale it into `[2^23, 2^24)` and round to the
nearest (even) integer significand. -/
def froundPos (a d : Nat) (e : Int) : Dy :=
  let lg : Int := qlog2 a d
  let t : Int := 23 - lg
  let m := rneNat (a * 2 ^ t.toNat) (d * 2 ^ (-t).toNat)
  ⟨m, lg + e - 23⟩

/-- Round the rational `(n / d) * 2 ^ e` (`d ≥ 1`) to the nearest
binary32 value (round-to-nearest, ties-to-even). -/
def fround (n : Int) (d : Nat) (e : Int) : Dy :=
  if n = 0 then ⟨0, 0⟩
  else if 0 < n then froundPos n.toNat d e
  else
    let p := froundPos (-n).toNat d e
    ⟨-p.m, p.e⟩

/-- `f32` addition: the exact sum, correctly rounded. -/
def fadd (x y : Dy) : Dy :=
  let e := min x.e y.e
  fround (x.m * 2 ^ (x.e - e).toNat + y.m * 2 ^ (y.e - e).toNat) 1 e

/-- `f32` negation (exact). -/
def fneg (x : Dy) : Dy := ⟨-x.m, x.e⟩

/-- `f32` subtraction: the exact difference, correctly rounded. -/
def fsub (x y : Dy) : Dy := fadd x (fneg y)

/-- `f32` multiplication: the exact product, correctly rounded. -/
def fmul (x y : Dy) : Dy := fround (x.m * y.m) 1 (x.e + y.e)

/-- `f32` division: the exact quotient, correctly rounded (the divisor
is never zero in the embedded code; `0` is returned as a don't-care). -/
def fdiv (x y : Dy) : Dy :=
  if y.m = 0 then ⟨0, 0⟩
  else fround (if y.m < 0 then -x.m else x.m) y.m.natAbs (x.e - y.e)

/-- Value comparison `x ≤ y` of two dyadics, by cross-scaling the
significands to the common exponent. -/
def Dy.ble (x y : Dy) : Bool :=
  let e := min x.e y.e
  x.m * 2 ^ (x.e - e).toNat ≤ y.m * 2 ^ (y.e - e).toNat

/-- Rust `f32::min` on finite values. -/
def fmin (x y : Dy) : Dy := if Dy.ble x y then x else y

/-- Rust `f32::max` on finite values. -/
def fmax (x y : Dy) : Dy := if Dy.ble x y then y else x

/-- Floor of a nonnegative dyadic value. -/
def Dy.floorNN (x : Dy) : Nat :=
  if 0 ≤ x.e then x.m.toNat * 2 ^ x.e.toNat
  else x.m.toNat / 2 ^ (-x.e).toNat

/-- Rust `as u8` on an `f32`: truncation toward zero, saturating at the
bounds of `u8` (everything below 0 gives 0, everything above 255 gives
255). -/
def f32toU8 (x : Dy) : Nat :=
  if x.m < 0 then 0 else min 255 x.floorNN

/-- The `f32` literal `0.0`. -/
def dy0 : Dy := ⟨0, 0⟩

/-- The `f32` literal `0.5` (exact: `1 * 2^-1`). -/
def dyHalf : Dy := ⟨1, -1⟩

/-- The `f32` literal `1.0`. -/
def dy1 : Dy := ⟨1, 0⟩

/-- The `f32` literal `255.0` (exact: integers below `2^24` are exact
in binary32), also the value of a `u8` channel cast `as f32`. -/
def dy255 : Dy := ⟨255, 0⟩

/-- A `u8` channel value cast `as f32` (exact). -/
def ofU8 (v : Nat) : Dy := ⟨(v : Int), 0⟩

/-! ### Data model: RGBA8 pixels and images -/

/-- One RGBA pixel; each channel is a `u8` value (an invariant
`≤ 255` carried as a side condition, not by the type). -/
structure Pixel where
  r : Nat
  g : Nat
  b : Nat
  a : Nat
deriving DecidableEq

/-- All four channels fit in a `u8`. -/
def Pixel.valid (p : Pixel) : Prop :=
  p.r ≤ 255 ∧ p.g ≤ 255 ∧ p.b ≤ 255 ∧ p.a ≤ 255

instance (p : Pixel) : Decidable p.valid := by
  unfold Pixel.valid; infer_instance

/-- An RGBA8 raster image: dimensions plus a pixel function (the value
at coordinates outside the dimensions is irrelevant to every
operation). -/
structure Image where
  width : Nat
  height : Nat
  pix : Nat → Nat → Pixel

/-- The dimensions fit in `u32`. -/
def Image.validDims (img : Image) : Prop :=
  img.width < 2 ^ 32 ∧ img.height < 2 ^ 32

/-- The two error kinds of the program. -/
inductive ImageError where
  | loadError (msg : String)
  | operationError (msg : String)
deriving DecidableEq

/-- Addition of two `u32` values in release-build semantics: the
mathematical sum wraps modulo `2^32`. -/
def u32add (x y : Nat) : Nat := (x + y) % 2 ^ 32

/-! ### The image operations (`impl ImageProcessor`, `src/main.rs`)

The processor owns one image; each operation is embedded as explicit
state passing, `Image → ... → Image × Option ImageError`, where the
returned image is the processor's buffer after the call and `some e`
is the `Err(e)` early return (which leaves the buffer untouched).
`to_rgba8` conversions are identities here because the model is
already an RGBA8 buffer. -/

/-- Modelled from the image crate's `imageops::crop` (the library call
behind `self.image.crop` on line 37): the requested rectangle is
clamped to the image bounds and the clamped sub-rectangle is copied
out pixelwise, so pixel `(i, j)` of the result is pixel
`(x + i, y + j)` of the source. -/
def cropImage (img : Image) (x y w h : Nat) : Image :=
  let xc := min x img.width
  let yc := min y img.height
  let hc := min h (img.height - yc)
  let wc := min w (img.width - xc)
  ⟨wc, hc, fun i j => img.pix (xc + i) (yc + j)⟩

/-- `ImageProcessor::crop` (lines 30-39): if
`x + width > self.image.width() || y + height > self.image.height()`
(u32 sums, line 31) the call fails with `OperationError` and the image
is left untouched; otherwise the image is replaced by the library
crop. -/
def crop (st : Image) (x y w h : Nat) : Image × Option ImageError :=
  if u32add x w > st.width ∨ u32add y h > st.height then
    (st, some (.operationError "Crop dimensions exceed image bounds"))
  else
    (cropImage st x y w h, none)

/-- Modelled from the spec: `imageproc::rotate_about_center` is
external library code; per the spec "output canvas size is unspecified
beyond same as input (rotation does not resize the canvas)", the
result keeps the dimensions of its input.  The bilinearly interpolated
pixel content (real-valued trigonometry) has no exact rational
embedding and is abstracted as the sampling function `sample`. -/
def rotate_about_center (sample : Nat → Nat → Pixel) (img : Image) : Image :=
  ⟨img.width, img.height, sample⟩

/-- `ImageProcessor::rotate` (lines 42-57): converts the angle to
radians, calls the library rotation and stores the result; the
function has no error path.  `sample` stands for the library's
bilinear interpolation at this angle. -/
def rotate (st : Image) (sample : Nat → Nat → Pixel) (_angle : Dy) :
    Image × Option ImageError :=
  (rotate_about_center sample st, none)

/-- Channel transform of `adjust_brightness` (line 63):
`(channel as f32 * factor).min(255.0) as u8`. -/
def brightnessChannel (factor : Dy) (v : Nat) : Nat :=
  f32toU8 (fmin (fmul (ofU8 v) factor) dy255)

/-- `ImageProcessor::adjust_brightness` (lines 60-69): every pixel's
R, G and B go through `brightnessChannel`; the alpha channel is not
touched.  Never fails. -/
def adjust_brightness (st : Image) (factor : Dy) : Image × Option ImageError :=
  (⟨st.width, st.height, fun u v =>
    let p := st.pix u v
    ⟨brightnessChannel factor p.r, brightnessChannel factor p.g,
     brightnessChannel factor p.b, p.a⟩⟩, none)

/-- Modelled from the spec: the grayscale conversion is delegated to
the image crate (`self.image.grayscale().to_rgba8()`, line 79), whose
pinned version (the Cargo manifest) is not part of `src/`; the spec
fixes its contract as "converts to perceptual grayscale, then
re-expands to 4 channels (R=G=B=luma, alpha preserved ... implementer
must preserve original alpha per pixel)".  `luma` carries the BT.709
luminance weights of the library conversion. -/
def luma (r g b : Nat) : Nat := (2126 * r + 7152 * g + 722 * b) / 10000

/-- `ImageProcessor::grayscale` (lines 78-81): replace the image by
its grayscale conversion, re-expanded to RGBA.  Never fails. -/
def grayscale (st : Image) : Image × Option ImageError :=
  (⟨st.width, st.height, fun u v =>
    let p := st.pix u v
    let l := luma p.r p.g p.b
    ⟨l, l, l, p.a⟩⟩, none)

/-- `ImageProcessor::invert` (lines 84-93): every R, G and B channel
is replaced by `255 - value` (`u8` arithmetic — channels are `u8`
values, so the subtraction cannot underflow); alpha untouched.  Never
fails. -/
def invert (st : Image) : Image × Option ImageError :=
  (⟨st.width, st.height, fun u v =>
    let p := st.pix u v
    ⟨255 - p.r, 255 - p.g, 255 - p.b, p.a⟩⟩, none)

/-- Channel transform of `adjust_contrast` (lines 100-101):
`(((channel as f32 / 255.0) - 0.5) * factor + 0.5) * 255.0`, then
`.max(0.0).min(255.0) as u8`. -/
def contrastChannel (factor : Dy) (v : Nat) : Nat :=
  f32toU8 (fmin (fmax
    (fmul (fadd (fmul (fsub (fdiv (ofU8 v) dy255) dyHalf) factor) dyHalf) dy255)
    dy0) dy255)

/-- `ImageProcessor::adjust_contrast` (lines 96-106): channels 0..2 of
every pixel go through `contrastChannel`; alpha untouched.  Never
fails. -/
def adjust_contrast (st : Image) (factor : Dy) : Image × Option ImageError :=
  (⟨st.width, st.height, fun u v =>
    let p := st.pix u v
    ⟨contrastChannel factor p.r, contrastChannel factor p.g,
     contrastChannel factor p.b, p.a⟩⟩, none)

/-- `put_pixel` on the mutable base buffer. -/
def putPixel (f : Nat → Nat → Pixel) (px py : Nat) (p : Pixel) :
    Nat → Nat → Pixel :=
  fun u v => if u = px ∧ v = py then p else f u v

/-- The blended pixel of the partial-alpha branch (lines 134-141):
`alpha = srcA as f32 / 255.0`, each RGB channel
`((1.0 - alpha) * base as f32 + alpha * src as f32) as u8`, and the
destination alpha is the literal `255`. -/
def blendPixel (src bp : Pixel) : Pixel :=
  let alpha := fdiv (ofU8 src.a) dy255
  ⟨f32toU8 (fadd (fmul (fsub dy1 alpha) (ofU8 bp.r)) (fmul alpha (ofU8 src.r))),
   f32toU8 (fadd (fmul (fsub dy1 alpha) (ofU8 bp.g)) (fmul alpha (ofU8 src.g))),
   f32toU8 (fadd (fmul (fsub dy1 alpha) (ofU8 bp.b)) (fmul alpha (ofU8 src.b))),
   255⟩

/-- Body of the overlay loop (lines 126-145) for the overlay pixel at
`(i, j)`: fully transparent source pixels are skipped, fully opaque
ones replace the base pixel, anything else is blended.  The positions
`x_pos = x + i`, `y_pos = y + j` (lines 127-128) are u32 sums. -/
def overlayStep (ov : Image) (x y : Nat) (base : Nat → Nat → Pixel)
    (ij : Nat × Nat) : Nat → Nat → Pixel :=
  if (ov.pix ij.1 ij.2).a > 0 then
    if (ov.pix ij.1 ij.2).a = 255 then
      putPixel base (u32add x ij.1) (u32add y ij.2) (ov.pix ij.1 ij.2)
    else
      putPixel base (u32add x ij.1) (u32add y ij.2)
        (blendPixel (ov.pix ij.1 ij.2) (base (u32add x ij.1) (u32add y ij.2)))
  else base

/-- The iteration order of `enumerate_pixels`: row-major, x fastest. -/
def pixelList (w h : Nat) : List (Nat × Nat) :=
  (List.range h).flatMap (fun j => (List.range w).map (fun i => (i, j)))

/-- `ImageProcessor::overlay_image` (lines 109-149): if
`x + overlay.width() > self.image.width() || y + overlay.height() >
self.image.height()` (u32 sums, line 115) the call fails with
`OperationError` and the image is left untouched; otherwise every
overlay pixel is folded into the base buffer by `overlayStep`. -/
def overlay_image (st : Image) (ov : Image) (x y : Nat) :
    Image × Option ImageError :=
  if u32add x ov.width > st.width ∨ u32add y ov.height > st.height then
    (st, some (.operationError "Overlay image exceeds base image bounds"))
  else
    (⟨st.width, st.height,
      (pixelList ov.width ov.height).foldl (overlayStep ov x y) st.pix⟩, none)

/-- The per-overlay-pixel compositing rule as the specification states
it: source alpha 0 leaves the base pixel, source alpha 255 replaces
it, anything else blends (with destination alpha forced to 255). -/
def composePixel (src bp : Pixel) : Pixel :=
  if src.a = 0 then bp
  else if src.a = 255 then src
  else blendPixel src bp

/-! ### Concrete test data (witness inputs) -/

/-- A concrete 10 × 10 base image. -/
def testImage : Image := ⟨10, 10, fun _ _ => ⟨1, 2, 3, 255⟩⟩

/-- A concrete 1 × 1 fully transparent overlay. -/
def testOverlay : Image := ⟨1, 1, fun _ _ => ⟨9, 9, 9, 0⟩⟩

/-! ### General lemmas -/

/-- A non-overflowing u32 sum is the mathematical sum. -/
theorem u32add_eq_of_lt {x y : Nat} (h : x + y < 2 ^ 32) :
    u32add x y = x + y := Nat.mod_eq_of_lt h

/-- Model validation: `3.0f32 / 10.0` is the binary32 value
`0.3 = 10066330 * 2^-25` (IEEE bit pattern `0x3E99999A`). -/
theorem fdiv_three_ten : fdiv ⟨3, 0⟩ ⟨10, 0⟩ = ⟨10066330, -25⟩ := by decide

/-! ### C2: in-bounds crop -/

/-- C2: for every image of size `W × H` and every `x, y, w, h` with
`x + w ≤ W` and `y + h ≤ H` (all quantities `u32`-sized), `crop`
succeeds, the result has dimensions exactly `(w, h)`, and pixel
`(0, 0)` of the result is pixel `(x, y)` of the original. -/
theorem crop_inbounds_spec (img : Image) (x y w h : Nat)
    (hd : img.validDims)
    (hw : x + w ≤ img.width) (hh : y + h ≤ img.height) :
    (crop img x y w h).2 = none ∧
    (crop img x y w h).1.width = w ∧
    (crop img x y w h).1.height = h ∧
    (crop img x y w h).1.pix 0 0 = img.pix x y := by
  obtain ⟨hW, hH⟩ := hd
  have hxw : u32add x w = x + w := u32add_eq_of_lt (lt_of_le_of_lt hw hW)
  have hyh : u32add y h = y + h := u32add_eq_of_lt (lt_of_le_of_lt hh hH)
  have hcheck : ¬ (u32add x w > img.width ∨ u32add y h > img.height) := by
    rw [hxw, hyh]; omega
  have hx : min x img.width = x := Nat.min_eq_left (by omega)
  have hy : min y img.height = y := Nat.min_eq_left (by omega)
  refine ⟨?_, ?_, ?_, ?_⟩ <;>
    simp only [crop, cropImage, if_neg hcheck, hx, hy] <;>
    first
      | rfl
      | (simp only [Nat.min_eq_left (by omega : w ≤ img.width - x),
          Nat.min_eq_left (by omega : h ≤ img.height - y)])

/-- Witness for C2 at a concrete input. -/
theorem crop_inbounds_spec_witness :
    testImage.validDims ∧ 2 + 5 ≤ testImage.width ∧ 3 + 4 ≤ testImage.height ∧
    ((crop testImage 2 3 5 4).2 = none ∧
     (crop testImage 2 3 5 4).1.width = 5 ∧
     (crop testImage 2 3 5 4).1.height = 4 ∧
     (crop testImage 2 3 5 4).1.pix 0 0 = testImage.pix 2 3) :=
  ⟨⟨by norm_num [testImage], by norm_num [testImage]⟩, by norm_num [testImage],
   by norm_num [testImage],
   crop_inbounds_spec testImage 2 3 5 4
     ⟨by norm_num [testImage], by norm_num [testImage]⟩
     (by norm_num [testImage]) (by norm_num [testImage])⟩

/-! ### C3: out-of-bounds operations fail and leave the image intact -/

/-- C3 counterexample: with `x = 2^32 - 1` and `width = 2` on a
`10 × 10` image the mathematical footprint `x + width = 2^32 + 1`
exceeds the bounds, yet the wrapped u32 check sees `1 ≤ 10` and the
call returns success instead of `OperationError`. -/
theorem crop_oob_overflow_no_error :
    (2 ^ 32 - 1 : Nat) + 2 > testImage.width ∧
    (crop testImage (2 ^ 32 - 1) 0 2 1).2 = none := by decide

/-- C3 (amended): whenever the u32 sums `x + w` and `y + h` do not
overflow, a region or footprint exceeding the image bounds makes
`crop` (resp. `overlay_image`) return `OperationError` with the
processor's image — dimensions and every pixel — exactly as it was
before the call. -/
theorem crop_overlay_oob_spec :
    (∀ (img : Image) (x y w h : Nat), x + w < 2 ^ 32 → y + h < 2 ^ 32 →
      (x + w > img.width ∨ y + h > img.height) →
      crop img x y w h =
        (img, some (ImageError.operationError
          "Crop dimensions exceed image bounds"))) ∧
    (∀ (img ov : Image) (x y : Nat),
      x + ov.width < 2 ^ 32 → y + ov.height < 2 ^ 32 →
      (x + ov.width > img.width ∨ y + ov.height > img.height) →
      overlay_image img ov x y =
        (img, some (ImageError.operationError
          "Overlay image exceeds base image bounds"))) := by
  constructor
  · intro img x y w h hxw hyh hoob
    rw [crop, if_pos (by rw [u32add_eq_of_lt hxw, u32add_eq_of_lt hyh]; exact hoob)]
  · intro img ov x y hxw hyh hoob
    rw [overlay_image,
      if_pos (by rw [u32add_eq_of_lt hxw, u32add_eq_of_lt hyh]; exact hoob)]

/-- Witness for C3 (amended) at concrete inputs. -/
theorem crop_overlay_oob_spec_witness :
    (0 + 11 < 2 ^ 32 ∧ 0 + 1 < 2 ^ 32 ∧ 0 + 11 > testImage.width ∧
      crop testImage 0 0 11 1 =
        (testImage, some (ImageError.operationError
          "Crop dimensions exceed image bounds"))) ∧
    (10 + testOverlay.width < 2 ^ 32 ∧ 0 + testOverlay.height < 2 ^ 32 ∧
      10 + testOverlay.width > testImage.width ∧
      overlay_image testImage testOverlay 10 0 =
        (testImage, some (ImageError.operationError
          "Overlay image exceeds base image bounds"))) := by
  refine ⟨⟨by decide, by decide, by decide, ?_⟩,
          ⟨by decide, by decide, by decide, ?_⟩⟩
  · exact crop_overlay_oob_spec.1 testImage 0 0 11 1 (by decide) (by decide)
      (Or.inl (by decide))
  · exact crop_overlay_oob_spec.2 testImage testOverlay 10 0 (by decide)
      (by decide) (Or.inl (by decide))

/-! ### C9: the bounds check uses unchecked u32 arithmetic -/

/-- C9: the bounds checks of `crop` and `overlay_image` compute
`x + width` and `y + height` in u32 arithmetic; for `x = u32::MAX`
with nonzero width the mathematical sum exceeds `u32::MAX`, the
wrapped sum the check compares is tiny, and the call does not return
`OperationError` even though the real footprint exceeds the bounds
(release-build wraparound semantics; a debug build would panic on the
same inputs instead of validating them). -/
theorem bounds_check_overflow_bypass :
    (2 ^ 32 - 1 : Nat) + 2 > 2 ^ 32 - 1 ∧
    u32add (2 ^ 32 - 1) 2 = 1 ∧
    ((2 ^ 32 - 1 : Nat) + 2 > testImage.width ∧
      (crop testImage (2 ^ 32 - 1) 0 2 1).2 = none) ∧
    ((2 ^ 32 - 1 : Nat) + 1 > testImage.width ∧
      (overlay_image testImage testOverlay (2 ^ 32 - 1) 0).2 = none) := by
  decide

/-! ### C10: zero-sized crops are not rejected -/

/-- C10: for every in-bounds position, `crop (x, y, 0, 0)` succeeds
rather than failing with `OperationError`, and the resulting image has
zero width and height — the "dimensions are always positive" invariant
is not preserved by `crop`. -/
theorem crop_zero_spec (img : Image) (x y : Nat) (hd : img.validDims)
    (hx : x ≤ img.width) (hy : y ≤ img.height) :
    (crop img x y 0 0).2 = none ∧
    (crop img x y 0 0).1.width = 0 ∧
    (crop img x y 0 0).1.height = 0 := by
  have h := crop_inbounds_spec img x y 0 0 hd (by omega) (by omega)
  exact ⟨h.1, h.2.1, h.2.2.1⟩

/-- Witness for C10 at a concrete input. -/
theorem crop_zero_spec_witness :
    testImage.validDims ∧ 4 ≤ testImage.width ∧ 7 ≤ testImage.height ∧
    ((crop testImage 4 7 0 0).2 = none ∧
     (crop testImage 4 7 0 0).1.width = 0 ∧
     (crop testImage 4 7 0 0).1.height = 0) :=
  ⟨⟨by norm_num [testImage], by norm_num [testImage]⟩, by norm_num [testImage],
   by norm_num [testImage],
   crop_zero_spec testImage 4 7
     ⟨by norm_num [testImage], by norm_num [testImage]⟩
     (by norm_num [testImage]) (by norm_num [testImage])⟩

/-! ### C5: grayscale -/

/-- C5: `grayscale` keeps the dimensions and produces, at every pixel,
`R = G = B` (the luma value) with the original per-pixel alpha
preserved (library conversion modelled from the spec, see `luma`). -/
theorem grayscale_spec (img : Image) :
    (grayscale img).2 = none ∧
    (grayscale img).1.width = img.width ∧
    (grayscale img).1.height = img.height ∧
    ∀ u v,
      ((grayscale img).1.pix u v).r = ((grayscale img).1.pix u v).g ∧
      ((grayscale img).1.pix u v).g = ((grayscale img).1.pix u v).b ∧
      ((grayscale img).1.pix u v).a = (img.pix u v).a := by
  refine ⟨rfl, rfl, rfl, fun u v => ⟨rfl, rfl, rfl⟩⟩

/-! ### C7: invert -/

/-- C7: a single `invert` maps every R, G, B channel to `255 - value`
and leaves alpha unchanged; applying it twice restores every channel
exactly (`u8` channels, hence the validity hypothesis). -/
theorem invert_spec (img : Image) (u v : Nat)
    (hval : (img.pix u v).valid) :
    (invert img).2 = none ∧
    ((invert img).1.pix u v).r = 255 - (img.pix u v).r ∧
    ((invert img).1.pix u v).g = 255 - (img.pix u v).g ∧
    ((invert img).1.pix u v).b = 255 - (img.pix u v).b ∧
    ((invert img).1.pix u v).a = (img.pix u v).a ∧
    ((invert (invert img).1).1.pix u v = img.pix u v) ∧
    ((invert (invert img).1).1.pix u v).a = (img.pix u v).a := by
  obtain ⟨hr, hg, hb, _⟩ := hval
  refine ⟨rfl, rfl, rfl, rfl, rfl, ?_, ?_⟩
  · show (⟨255 - (255 - (img.pix u v).r), 255 - (255 - (img.pix u v).g),
          255 - (255 - (img.pix u v).b), (img.pix u v).a⟩ : Pixel) = img.pix u v
    have er : 255 - (255 - (img.pix u v).r) = (img.pix u v).r := by omega
    have eg : 255 - (255 - (img.pix u v).g) = (img.pix u v).g := by omega
    have eb : 255 - (255 - (img.pix u v).b) = (img.pix u v).b := by omega
    rw [er, eg, eb]
  · rfl

/-- Witness for C7 at a concrete input. -/
theorem invert_spec_witness :
    (testImage.pix 0 0).valid ∧
    ((invert testImage).2 = none ∧
     ((invert testImage).1.pix 0 0).r = 255 - (testImage.pix 0 0).r ∧
     ((invert testImage).1.pix 0 0).g = 255 - (testImage.pix 0 0).g ∧
     ((invert testImage).1.pix 0 0).b = 255 - (testImage.pix 0 0).b ∧
     ((invert testImage).1.pix 0 0).a = (testImage.pix 0 0).a ∧
     ((invert (invert testImage).1).1.pix 0 0 = testImage.pix 0 0) ∧
     ((invert (invert testImage).1).1.pix 0 0).a = (testImage.pix 0 0).a) :=
  ⟨by decide, invert_spec testImage 0 0 (by decide)⟩

/-! ### C8: rotate -/

/-- C8: `rotate` has no error path — it succeeds for every angle — and
the rotated canvas keeps the width and height of its input (library
rotation modelled from the spec's same-canvas contract; its bilinear
pixel content is abstracted by `sample`). -/
theorem rotate_spec (img : Image) (sample : Nat → Nat → Pixel)
    (angle : Dy) :
    (rotate img sample angle).2 = none ∧
    (rotate img sample angle).1.width = img.width ∧
    (rotate img sample angle).1.height = img.height :=
  ⟨rfl, rfl, rfl⟩

/-! ### Sign and range lemmas for the f32 pipeline -/

/-- The significand produced by `froundPos` is a natural number. -/
theorem froundPos_m_nonneg (a d : Nat) (e : Int) :
    0 ≤ (froundPos a d e).m :=
  Int.natCast_nonneg _

/-- Rounding a nonpositive value gives a nonpositive significand. -/
theorem fround_m_nonpos {n : Int} {d : Nat} {e : Int} (h : n ≤ 0) :
    (fround n d e).m ≤ 0 := by
  unfold fround
  split
  · exact le_refl 0
  · split
    · omega
    · simpa using neg_nonpos_of_nonneg (froundPos_m_nonneg _ _ _)

/-- `f32::min` with `255.0` returns its left argument when that value
is nonpositive. -/
theorem fmin_dy255_of_nonpos {z : Dy} (h : z.m ≤ 0) : fmin z dy255 = z := by
  rw [fmin, if_pos]
  simp only [Dy.ble, dy255, decide_eq_true_eq]
  calc z.m * 2 ^ (z.e - min z.e (0:Int)).toNat
      ≤ 0 := mul_nonpos_of_nonpos_of_nonneg h (by positivity)
    _ ≤ (255:Int) * 2 ^ ((0:Int) - min z.e (0:Int)).toNat := by positivity

/-- `as u8` sends every nonpositive value to 0. -/
theorem f32toU8_nonpos {z : Dy} (h : z.m ≤ 0) : f32toU8 z = 0 := by
  unfold f32toU8
  split
  · rfl
  · next hn =>
    have hz : z.m = 0 := by omega
    unfold Dy.floorNN
    rw [hz]
    split <;> simp

/-- `as u8` never exceeds 255. -/
theorem f32toU8_le (z : Dy) : f32toU8 z ≤ 255 := by
  unfold f32toU8
  split
  · omega
  · exact Nat.min_le_left _ _

/-- A dyadic with negative value has a negative significand. -/
theorem Dy.m_neg_of_toRat_neg {z : Dy} (h : z.toRat < 0) : z.m < 0 := by
  by_contra hm
  push_neg at hm
  have hpow : (0:ℚ) < (2:ℚ) ^ z.e := by positivity
  have : (0:ℚ) ≤ z.toRat :=
    mul_nonneg (by exact_mod_cast hm) (le_of_lt hpow)
  linarith

/-! ### C6: brightness -/

/-- The brightness channel map never exceeds 255. -/
theorem brightnessChannel_le (factor : Dy) (v : Nat) :
    brightnessChannel factor v ≤ 255 := f32toU8_le _

/-- A negative factor collapses every channel to 0. -/
theorem brightnessChannel_neg {factor : Dy} (h : factor.toRat < 0)
    (v : Nat) : brightnessChannel factor v = 0 := by
  have hm := Dy.m_neg_of_toRat_neg h
  have h1 : (fmul (ofU8 v) factor).m ≤ 0 :=
    fround_m_nonpos
      (mul_nonpos_of_nonneg_of_nonpos (Int.natCast_nonneg v) (le_of_lt hm))
  unfold brightnessChannel
  rw [fmin_dy255_of_nonpos h1]
  exact f32toU8_nonpos h1

/-- The `f32` multiplication by the literal `1.0` is exact on `u8`
channel values, so `brightnessChannel` at factor 1.0 is the
identity. -/
theorem brightnessChannel_one :
    ∀ v : Nat, v < 256 → brightnessChannel dy1 v = v := by decide

/-- C6: `adjust_brightness` never fails and keeps the dimensions; each
R, G, B channel is the factor-multiplied value clamped into `[0,255]`
(`brightnessChannel`), so channels never exceed 255 and a negative
factor collapses them to 0; alpha is untouched; and factor `1.0` is a
no-op on every valid pixel. -/
theorem adjust_brightness_spec (img : Image) (factor : Dy) (u v : Nat)
    (hval : (img.pix u v).valid) :
    (adjust_brightness img factor).2 = none ∧
    (adjust_brightness img factor).1.width = img.width ∧
    (adjust_brightness img factor).1.height = img.height ∧
    ((adjust_brightness img factor).1.pix u v).r
      = brightnessChannel factor (img.pix u v).r ∧
    ((adjust_brightness img factor).1.pix u v).g
      = brightnessChannel factor (img.pix u v).g ∧
    ((adjust_brightness img factor).1.pix u v).b
      = brightnessChannel factor (img.pix u v).b ∧
    ((adjust_brightness img factor).1.pix u v).a = (img.pix u v).a ∧
    ((adjust_brightness img factor).1.pix u v).r ≤ 255 ∧
    ((adjust_brightness img factor).1.pix u v).g ≤ 255 ∧
    ((adjust_brightness img factor).1.pix u v).b ≤ 255 ∧
    (factor.toRat < 0 →
      ((adjust_brightness img factor).1.pix u v).r = 0 ∧
      ((adjust_brightness img factor).1.pix u v).g = 0 ∧
      ((adjust_brightness img factor).1.pix u v).b = 0) ∧
    (factor = dy1 →
      (adjust_brightness img factor).1.pix u v = img.pix u v) := by
  obtain ⟨hr, hg, hb, _⟩ := hval
  refine ⟨rfl, rfl, rfl, rfl, rfl, rfl, rfl,
    brightnessChannel_le _ _, brightnessChannel_le _ _,
    brightnessChannel_le _ _, fun hneg =>
      ⟨brightnessChannel_neg hneg _, brightnessChannel_neg hneg _,
       brightnessChannel_neg hneg _⟩, fun h1 => ?_⟩
  subst h1
  show (⟨brightnessChannel dy1 (img.pix u v).r,
        brightnessChannel dy1 (img.pix u v).g,
        brightnessChannel dy1 (img.pix u v).b,
        (img.pix u v).a⟩ : Pixel) = img.pix u v
  rw [brightnessChannel_one _ (by omega), brightnessChannel_one _ (by omega),
    brightnessChannel_one _ (by omega)]

/-- Witness for C6 at a concrete input (factor `1.0`). -/
theorem adjust_brightness_spec_witness :
    (testImage.pix 0 0).valid ∧
    ((adjust_brightness testImage dy1).2 = none ∧
     (adjust_brightness testImage dy1).1.width = testImage.width ∧
     (adjust_brightness testImage dy1).1.height = testImage.height ∧
     ((adjust_brightness testImage dy1).1.pix 0 0).r
       = brightnessChannel dy1 (testImage.pix 0 0).r ∧
     ((adjust_brightness testImage dy1).1.pix 0 0).g
       = brightnessChannel dy1 (testImage.pix 0 0).g ∧
     ((adjust_brightness testImage dy1).1.pix 0 0).b
       = brightnessChannel dy1 (testImage.pix 0 0).b ∧
     ((adjust_brightness testImage dy1).1.pix 0 0).a = (testImage.pix 0 0).a ∧
     ((adjust_brightness testImage dy1).1.pix 0 0).r ≤ 255 ∧
     ((adjust_brightness testImage dy1).1.pix 0 0).g ≤ 255 ∧
     ((adjust_brightness testImage dy1).1.pix 0 0).b ≤ 255 ∧
     (dy1.toRat < 0 →
       ((adjust_brightness testImage dy1).1.pix 0 0).r = 0 ∧
       ((adjust_brightness testImage dy1).1.pix 0 0).g = 0 ∧
       ((adjust_brightness testImage dy1).1.pix 0 0).b = 0) ∧
     (dy1 = dy1 →
       (adjust_brightness testImage dy1).1.pix 0 0 = testImage.pix 0 0)) :=
  ⟨by decide, adjust_brightness_spec testImage dy1 0 0 (by decide)⟩

/-! ### C4: contrast -/

/-- C4 counterexample: `adjust_contrast(1.0)` is not the identity.  On
the pixel `(1, 2, 3, 255)` the f32 computation
`((v/255 - 0.5) * 1.0 + 0.5) * 255` lands just below each integer and
the `as u8` truncation returns `(0, 1, 2, 255)`. -/
theorem adjust_contrast_one_not_identity :
    (adjust_contrast testImage dy1).1.pix 0 0 ≠ testImage.pix 0 0 := by
  decide

/-- At factor `1.0` each channel comes back either exactly or one
below (the f32 rounding of `v/255` loses just enough that truncation
steps down for 63 of the 256 channel values). -/
theorem contrastChannel_one :
    ∀ v : Nat, v < 256 →
      contrastChannel dy1 v = v ∨ contrastChannel dy1 v + 1 = v := by decide

/-- At factor `0.0` every channel collapses to exactly 127
(`0.5 * 255 = 127.5`, truncated). -/
theorem contrastChannel_zero :
    ∀ v : Nat, v < 256 → contrastChannel dy0 v = 127 := by decide

/-- C4 (amended): `adjust_contrast(0.0)` maps every R, G, B channel of
every valid pixel to exactly 127 (mid-gray), and `adjust_contrast(1.0)`
maps each channel to its original value or one below it (not the exact
identity — see the counterexample). -/
theorem adjust_contrast_spec (img : Image) (u v : Nat)
    (hval : (img.pix u v).valid) :
    ((adjust_contrast img dy0).1.pix u v).r = 127 ∧
    ((adjust_contrast img dy0).1.pix u v).g = 127 ∧
    ((adjust_contrast img dy0).1.pix u v).b = 127 ∧
    (((adjust_contrast img dy1).1.pix u v).r = (img.pix u v).r ∨
      ((adjust_contrast img dy1).1.pix u v).r + 1 = (img.pix u v).r) ∧
    (((adjust_contrast img dy1).1.pix u v).g = (img.pix u v).g ∨
      ((adjust_contrast img dy1).1.pix u v).g + 1 = (img.pix u v).g) ∧
    (((adjust_contrast img dy1).1.pix u v).b = (img.pix u v).b ∨
      ((adjust_contrast img dy1).1.pix u v).b + 1 = (img.pix u v).b) := by
  obtain ⟨hr, hg, hb, _⟩ := hval
  exact ⟨contrastChannel_zero _ (by omega), contrastChannel_zero _ (by omega),
    contrastChannel_zero _ (by omega), contrastChannel_one _ (by omega),
    contrastChannel_one _ (by omega), contrastChannel_one _ (by omega)⟩

/-- Witness for C4 (amended) at a concrete input. -/
theorem adjust_contrast_spec_witness :
    (testImage.pix 0 0).valid ∧
    (((adjust_contrast testImage dy0).1.pix 0 0).r = 127 ∧
     ((adjust_contrast testImage dy0).1.pix 0 0).g = 127 ∧
     ((adjust_contrast testImage dy0).1.pix 0 0).b = 127 ∧
     (((adjust_contrast testImage dy1).1.pix 0 0).r = (testImage.pix 0 0).r ∨
       ((adjust_contrast testImage dy1).1.pix 0 0).r + 1 = (testImage.pix 0 0).r) ∧
     (((adjust_contrast testImage dy1).1.pix 0 0).g = (testImage.pix 0 0).g ∨
       ((adjust_contrast testImage dy1).1.pix 0 0).g + 1 = (testImage.pix 0 0).g) ∧
     (((adjust_contrast testImage dy1).1.pix 0 0).b = (testImage.pix 0 0).b ∨
       ((adjust_contrast testImage dy1).1.pix 0 0).b + 1 = (testImage.pix 0 0).b)) :=
  ⟨by decide, adjust_contrast_spec testImage 0 0 (by decide)⟩

/-! ### C1: overlay compositing -/

/-- `put_pixel` leaves every other position unchanged. -/
theorem putPixel_ne {f : Nat → Nat → Pixel} {px py : Nat} {p : Pixel}
    {u v : Nat} (h : ¬(u = px ∧ v = py)) :
    putPixel f px py p u v = f u v := by
  simp only [putPixel, if_neg h]

/-- `put_pixel` writes its position. -/
theorem putPixel_same (f : Nat → Nat → Pixel) (px py : Nat) (p : Pixel) :
    putPixel f px py p px py = p := by
  simp [putPixel]

/-- A loop step only writes the position of its overlay pixel. -/
theorem overlayStep_ne (ov : Image) (x y : Nat)
    (base : Nat → Nat → Pixel) (ij : Nat × Nat) {u v : Nat}
    (h : ¬(u = u32add x ij.1 ∧ v = u32add y ij.2)) :
    overlayStep ov x y base ij u v = base u v := by
  unfold overlayStep
  split
  · split
    · exact putPixel_ne h
    · exact putPixel_ne h
  · rfl

/-- Folding loop steps none of which writes `(u, v)` leaves that
position of the buffer unchanged. -/
theorem foldl_overlayStep_ne (ov : Image) (x y : Nat)
    (L : List (Nat × Nat)) (base : Nat → Nat → Pixel) {u v : Nat}
    (h : ∀ ij ∈ L, ¬(u = u32add x ij.1 ∧ v = u32add y ij.2)) :
    (L.foldl (overlayStep ov x y) base) u v = base u v := by
  induction L generalizing base with
  | nil => rfl
  | cons a t ih =>
    rw [List.foldl_cons,
      ih _ (fun ij hij => h ij (List.mem_cons_of_mem a hij)),
      overlayStep_ne ov x y base a (h a (List.mem_cons_self a t))]

/-- At the position of its own overlay pixel, a loop step performs
exactly the compositing rule of the specification. -/
theorem overlayStep_at (ov : Image) (x y : Nat)
    (base : Nat → Nat → Pixel) (ij : Nat × Nat) :
    overlayStep ov x y base ij (u32add x ij.1) (u32add y ij.2)
      = composePixel (ov.pix ij.1 ij.2)
          (base (u32add x ij.1) (u32add y ij.2)) := by
  unfold overlayStep composePixel
  by_cases h0 : (ov.pix ij.1 ij.2).a = 0
  · rw [if_neg (by omega), if_pos h0]
  · rw [if_pos (by omega), if_neg h0]
    by_cases h255 : (ov.pix ij.1 ij.2).a = 255
    · rw [if_pos h255, if_pos h255, putPixel_same]
    · rw [if_neg h255, if_neg h255, putPixel_same]

/-- `overlayStep_at`, with the written position given as an
equation. -/
theorem overlayStep_at_pos (ov : Image) (x y : Nat)
    (base : Nat → Nat → Pixel) (ij : Nat × Nat) {u v : Nat}
    (hu : u = u32add x ij.1) (hv : v = u32add y ij.2) :
    overlayStep ov x y base ij u v
      = composePixel (ov.pix ij.1 ij.2) (base u v) := by
  subst hu; subst hv; exact overlayStep_at ov x y base ij

/-- Membership in the row-major enumeration. -/
theorem mem_pixelList {w h : Nat} {p : Nat × Nat} :
    p ∈ pixelList w h ↔ p.1 < w ∧ p.2 < h := by
  obtain ⟨i, j⟩ := p
  simp only [pixelList, List.mem_flatMap, List.mem_map, List.mem_range,
    Prod.mk.injEq]
  constructor
  · rintro ⟨j', hj', i', hi', rfl, rfl⟩
    exact ⟨hi', hj'⟩
  · rintro ⟨hi, hj⟩
    exact ⟨j, hj, i, hi, rfl, rfl⟩

/-- The row-major enumeration has no duplicates. -/
theorem pixelList_nodup (w h : Nat) : (pixelList w h).Nodup := by
  rw [pixelList, List.nodup_flatMap]
  constructor
  · intro j _
    exact (List.nodup_range w).map
      (fun a b hab => congrArg Prod.fst hab)
  · have hlt := List.pairwise_lt_range h
    refine hlt.imp ?_
    intro a b hab
    intro p hp1 hp2
    simp only [List.mem_map, List.mem_range] at hp1 hp2
    obtain ⟨i1, _, rfl⟩ := hp1
    obtain ⟨i2, _, h2⟩ := hp2
    have : a = b := congrArg Prod.snd h2.symm
    omega

/-- C1: with the overlay footprint inside the base bounds,
`overlay_image` succeeds, keeps the base dimensions, and rewrites
exactly the footprint: each covered pixel becomes
`composePixel (overlay pixel) (old base pixel)` — skip at source alpha
0, full replacement at source alpha 255, and otherwise the
`(1-alpha)*base + alpha*source` blend with destination alpha forced to
255 — while every position outside the footprint keeps its old base
pixel. -/
theorem overlay_image_spec (base ov : Image) (x y : Nat)
    (hd : base.validDims)
    (hw : x + ov.width ≤ base.width) (hh : y + ov.height ≤ base.height) :
    (overlay_image base ov x y).2 = none ∧
    (overlay_image base ov x y).1.width = base.width ∧
    (overlay_image base ov x y).1.height = base.height ∧
    (∀ i j, i < ov.width → j < ov.height →
      (overlay_image base ov x y).1.pix (x + i) (y + j)
        = composePixel (ov.pix i j) (base.pix (x + i) (y + j))) ∧
    (∀ u v, (∀ i j, i < ov.width → j < ov.height →
        ¬(u = x + i ∧ v = y + j)) →
      (overlay_image base ov x y).1.pix u v = base.pix u v) := by
  obtain ⟨hW, hH⟩ := hd
  have hnc : ¬(u32add x ov.width > base.width ∨
      u32add y ov.height > base.height) := by
    rw [u32add_eq_of_lt (by omega), u32add_eq_of_lt (by omega)]
    omega
  have hres : overlay_image base ov x y =
      (⟨base.width, base.height,
        (pixelList ov.width ov.height).foldl (overlayStep ov x y)
          base.pix⟩, none) := by
    rw [overlay_image, if_neg hnc]
  refine ⟨by rw [hres], by rw [hres], by rw [hres], ?_, ?_⟩
  · intro i j hi hj
    have hxi : u32add x i = x + i := u32add_eq_of_lt (by omega)
    have hyj : u32add y j = y + j := u32add_eq_of_lt (by omega)
    have hmem : (i, j) ∈ pixelList ov.width ov.height :=
      mem_pixelList.mpr ⟨hi, hj⟩
    obtain ⟨s, t, hst⟩ := List.append_of_mem hmem
    have hnd := pixelList_nodup ov.width ov.height
    rw [hst] at hnd
    have hnotin : (i, j) ∉ s ++ t :=
      (List.nodup_cons.mp (List.nodup_middle.mp hnd)).1
    have hbound : ∀ p ∈ s ++ (i, j) :: t,
        p.1 < ov.width ∧ p.2 < ov.height := by
      intro p hp
      exact mem_pixelList.mp (hst ▸ hp)
    have ht : ∀ ij ∈ t,
        ¬(x + i = u32add x ij.1 ∧ y + j = u32add y ij.2) := by
      intro ij hij hc
      have hb := hbound ij
        (List.mem_append_right s (List.mem_cons_of_mem _ hij))
      rw [u32add_eq_of_lt (by omega), u32add_eq_of_lt (by omega)] at hc
      have : ij = (i, j) := Prod.ext (by omega) (by omega)
      subst this
      exact hnotin (List.mem_append_right s hij)
    have hs : ∀ ij ∈ s,
        ¬(x + i = u32add x ij.1 ∧ y + j = u32add y ij.2) := by
      intro ij hij hc
      have hb := hbound ij (List.mem_append_left _ hij)
      rw [u32add_eq_of_lt (by omega), u32add_eq_of_lt (by omega)] at hc
      have : ij = (i, j) := Prod.ext (by omega) (by omega)
      subst this
      exact hnotin (List.mem_append_left t hij)
    rw [hres]
    show ((pixelList ov.width ov.height).foldl (overlayStep ov x y)
        base.pix) (x + i) (y + j)
      = composePixel (ov.pix i j) (base.pix (x + i) (y + j))
    rw [hst, List.foldl_append, List.foldl_cons,
      foldl_overlayStep_ne ov x y t _ ht,
      overlayStep_at_pos ov x y _ (i, j) hxi.symm hyj.symm,
      foldl_overlayStep_ne ov x y s base.pix hs]
  · intro u v huv
    rw [hres]
    show ((pixelList ov.width ov.height).foldl (overlayStep ov x y)
        base.pix) u v = base.pix u v
    refine foldl_overlayStep_ne ov x y _ base.pix ?_
    intro ij hij hc
    have hb := mem_pixelList.mp hij
    rw [u32add_eq_of_lt (by omega), u32add_eq_of_lt (by omega)] at hc
    exact huv ij.1 ij.2 hb.1 hb.2 hc

/-- A concrete 3 × 1 overlay exercising all three compositing
branches: opaque, half-transparent, fully transparent. -/
def testOverlay3 : Image :=
  ⟨3, 1, fun i _ =>
    if i = 0 then ⟨100, 150, 200, 255⟩
    else if i = 1 then ⟨100, 150, 200, 128⟩
    else ⟨7, 7, 7, 0⟩⟩

/-- Witness for C1 at a concrete input. -/
theorem overlay_image_spec_witness :
    testImage.validDims ∧
    1 + testOverlay3.width ≤ testImage.width ∧
    2 + testOverlay3.height ≤ testImage.height ∧
    ((overlay_image testImage testOverlay3 1 2).2 = none ∧
     (overlay_image testImage testOverlay3 1 2).1.width = testImage.width ∧
     (overlay_image testImage testOverlay3 1 2).1.height = testImage.height ∧
     (∀ i j, i < testOverlay3.width → j < testOverlay3.height →
       (overlay_image testImage testOverlay3 1 2).1.pix (1 + i) (2 + j)
         = composePixel (testOverlay3.pix i j)
             (testImage.pix (1 + i) (2 + j))) ∧
     (∀ u v, (∀ i j, i < testOverlay3.width → j < testOverlay3.height →
         ¬(u = 1 + i ∧ v = 2 + j)) →
       (overlay_image testImage testOverlay3 1 2).1.pix u v
         = testImage.pix u v)) :=
  ⟨⟨by decide, by decide⟩, by decide, by decide,
   overlay_image_spec testImage testOverlay3 1 2 ⟨by decide, by decide⟩
     (by decide) (by decide)⟩

end ImageEditor
